import Mathlib

/-!
# Chat server: registry, handshake and broadcast

A shallow embedding of `src/scripts/server.c` (with the constants of
`src/common.h`).  The global `clients` table and `clients_mutex` become an
explicit `Server` state; the socket calls become events appended to a trace;
the results of `recv` and the outcomes of the `send` calls of
`broadcast_message` (accepted, -1, or SIGPIPE) are inputs of the model.

Bytes are natural numbers.  A C string is represented by a list of bytes and
read up to its first zero byte (`cstr`).  The `username` field of a slot is
represented by the string it holds; a `strcpy` that does not fit the
`USERNAME_SIZE` bytes of the field, and an index write outside a local
buffer, have no defined result and are reported as `Fault.outOfBounds`.
-/

namespace ChatServer

/-! ## Constants (`common.h`) -/

def BUFFER_SIZE : Nat := 1024
def MAX_CLIENTS : Nat := 10
def USERNAME_SIZE : Nat := 100
def MSG_SIZE : Nat := 2048

/-! ## C strings -/

/-- Bytes of an ASCII string literal of the source. -/
def lit (s : String) : List Nat := s.toList.map Char.toNat

/-- The string a `char` buffer holds: its bytes before the first zero byte. -/
def cstr : List Nat → List Nat
  | [] => []
  | b :: bs => if b = 0 then [] else b :: cstr bs

/-- Model of `strlen`: the number of bytes before the terminator. -/
def strlen (s : List Nat) : Nat := (cstr s).length

/-- Model of `strcmp`: 0 when the two strings are equal, otherwise the sign of the first
differing byte (a buffer that ends counts as terminated there). -/
def strcmp : List Nat → List Nat → Int
  | [], [] => 0
  | [], b :: _ => if b = 0 then 0 else -1
  | a :: _, [] => if a = 0 then 0 else 1
  | a :: as, b :: bs =>
    if a = b then (if a = 0 then 0 else strcmp as bs)
    else if a < b then -1 else 1

/-- The conversion `%.Ns`: at most `n` bytes of the string argument. -/
def precision (n : Nat) (s : List Nat) : List Nat := (cstr s).take n

/-- Model of `snprintf(buf, size, ...)`: the formatted text cut to `size - 1` bytes. -/
def snprintf (size : Nat) (formatted : List Nat) : List Nat := formatted.take (size - 1)

/-- What the server does to the outside world and to the mutex.
`unlock wasHeld` and `slotRead i held` record whether `clients_mutex` was
held at that moment; `sigpipe` is the delivery of SIGPIPE to the process. -/
inductive Event where
  | lock
  | unlock (wasHeld : Bool)
  | slotRead (i : Nat) (held : Bool)
  | send (sock : Int) (bytes : List Nat)
  | perror
  | close (sock : Int)
  | broadcast (message : List Nat) (sender : Int)
  | sigpipe
deriving DecidableEq, Repr

/-- The outcome of the `send(fd, message, len, 0)` of `broadcast_message`
(line 154): the bytes are accepted; the call returns -1; or the peer is gone
and the call raises SIGPIPE.  The flags are 0 and `server.c` neither ignores
nor handles the signal, so its default action ends the process. -/
inductive SendResult where
  | sent
  | failed
  | sigpipe
deriving DecidableEq, Repr

/-- Ways an execution leaves the model: a write outside a buffer or field
(undefined behaviour), a lock of the mutex the thread already holds, a `recv`
with nothing left to deliver, the end of the process by SIGPIPE (with the
trace up to that point). -/
inductive Fault where
  | outOfBounds
  | deadlock
  | blocked
  | killed (trace : List Event)
deriving DecidableEq, Repr

deriving instance DecidableEq for Except

/-- Model of `strcpy` into a field of `capacity` bytes: defined only when the string and
its terminator fit. -/
def strcpy (capacity : Nat) (src : List Nat) : Except Fault (List Nat) :=
  if strlen src < capacity then .ok (cstr src) else .error .outOfBounds

/-! ## State -/

/-- One entry of `clients[]`: `socket` and the string held by `username`. -/
structure Client where
  socket : Int
  username : List Nat
deriving DecidableEq, Repr

/-- The globals `clients` and `clients_mutex`, and the trace of events. -/
structure Server where
  clients : List Client
  held : Bool
  trace : List Event
deriving DecidableEq, Repr

/-- A slot after `memset(..., 0, ...)`. -/
def zeroSlot : Client := { socket := 0, username := [] }

/-- The state after `memset(clients, 0, sizeof(clients))` in `main`. -/
def initial : Server :=
  { clients := List.replicate MAX_CLIENTS zeroSlot, held := false, trace := [] }

def emit (st : Server) (es : List Event) : Server :=
  { st with trace := st.trace ++ es }

/-- Model of `pthread_mutex_lock` in a single thread of control: locking a mutex that is
held never returns. -/
def pthread_mutex_lock (st : Server) : Except Fault Server :=
  if st.held then .error .deadlock
  else .ok { st with held := true, trace := st.trace ++ [.lock] }

/-- Model of `pthread_mutex_unlock`: the mutex is free afterwards; the event records
whether it was held. -/
def pthread_mutex_unlock (st : Server) : Server :=
  { st with held := false, trace := st.trace ++ [.unlock st.held] }

/-- The result of one `recv(client_socket, buf, BUFFER_SIZE, 0)`: an error
(return value -1) or the bytes received (return value their number; none for
an orderly shutdown). `recv` returns at most `BUFFER_SIZE` bytes. -/
inductive Recv where
  | error
  | data (bytes : List Nat)
deriving DecidableEq, Repr

/-! ## `is_username_taken` (server.c 178-185) -/

def is_username_taken : List Client → List Nat → Bool
  | [], _ => false
  | c :: rest, username =>
    if c.socket ≠ 0 ∧ strcmp c.username username = 0 then true
    else is_username_taken rest username

/-! ## `remove_client` (server.c 164-174) -/

/-- The loop of `remove_client`: clears the first slot whose socket matches. -/
def remove_slot : List Client → Int → List Client
  | [], _ => []
  | c :: rest, socket =>
    if c.socket = socket then zeroSlot :: rest
    else c :: remove_slot rest socket

def remove_client (st : Server) (socket : Int) : Except Fault Server :=
  match pthread_mutex_lock st with
  | .error e => .error e
  | .ok st1 =>
    .ok (pthread_mutex_unlock { st1 with clients := remove_slot st1.clients socket })

/-! ## `broadcast_message` (server.c 150-161) -/

/-- The `for` loop of `broadcast_message` from slot `i` on.  As the braces of
the source stand, `pthread_mutex_unlock` is the last statement of the loop
body and the `continue` after a failed `send` skips it.  `outcome i` is the
outcome of the `send` to slot `i`; on SIGPIPE the process ends there.
Returns the events and whether the mutex is held at the end of the loop
(`none` when the process was ended). -/
def broadcast_loop (message : List Nat) (sender_socket : Int) (outcome : Nat → SendResult) :
    Nat → List Client → Bool → List Event × Option Bool
  | _, [], held => ([], some held)
  | i, c :: rest, held =>
    if c.socket ≠ 0 ∧ c.socket ≠ sender_socket then
      match outcome i with
      | .sigpipe =>
        ([.slotRead i held, .send c.socket (cstr message), .sigpipe], none)
      | .failed =>
        let r := broadcast_loop message sender_socket outcome (i + 1) rest held
        (.slotRead i held :: .send c.socket (cstr message) :: .perror :: r.1, r.2)
      | .sent =>
        let r := broadcast_loop message sender_socket outcome (i + 1) rest false
        (.slotRead i held :: .send c.socket (cstr message) :: .unlock held :: r.1, r.2)
    else
      let r := broadcast_loop message sender_socket outcome (i + 1) rest false
      (.slotRead i held :: .unlock held :: r.1, r.2)

def broadcast_message (st : Server) (message : List Nat) (sender_socket : Int)
    (outcome : Nat → SendResult) : Except Fault Server :=
  match pthread_mutex_lock (emit st [.broadcast message sender_socket]) with
  | .error e => .error e
  | .ok st1 =>
    let r := broadcast_loop message sender_socket outcome 0 st1.clients true
    match r.2 with
    | none => .error (.killed (st1.trace ++ r.1))
    | some held => .ok { st1 with held := held, trace := st1.trace ++ r.1 }

/-! ## `handle_client` (server.c 81-146) -/

/-- Lines 87-88 and 120-124: the string in a `BUFFER_SIZE` buffer after
`recv` and `buf[bytes_read] = 0`.  The index write is inside the buffer only
for `0 <= bytes_read < BUFFER_SIZE`. -/
def recv_string : Recv → Except Fault (List Nat)
  | .error => .error .outOfBounds
  | .data bytes => if bytes.length < BUFFER_SIZE then .ok (cstr bytes) else .error .outOfBounds

/-- The text sent on a name collision and the length argument of that `send`. -/
def taken_text : List Nat := lit "Username already taken. Disconnecting.\n"
def taken_send_len : Nat := 40

/-- What `send(fd, text, len, 0)` transmits when `text` is a string literal:
`len` bytes of the literal followed by its terminator.  A length beyond the
terminator is outside the literal. -/
def send_literal (text : List Nat) (len : Nat) : Except Fault (List Nat) :=
  if len ≤ text.length + 1 then .ok ((text ++ [0]).take len) else .error .outOfBounds

/-- Lines 99-105: the loop that stores the client in the first free slot. -/
def add_client : List Client → Int → List Nat → Except Fault (List Client)
  | [], _, _ => .ok []
  | c :: rest, client_socket, username =>
    if c.socket = 0 then
      match strcpy USERNAME_SIZE username with
      | .error e => .error e
      | .ok u => .ok ({ socket := client_socket, username := u } :: rest)
    else
      match add_client rest client_socket username with
      | .error e => .error e
      | .ok rest1 => .ok (c :: rest1)

/-- Lines 90-106: the check-then-insert under the mutex.  The boolean is
`false` when the function returned at line 95 (name taken). -/
def try_register (st : Server) (client_socket : Int) (username : List Nat) :
    Except Fault (Server × Bool) :=
  match pthread_mutex_lock st with
  | .error e => .error e
  | .ok st1 =>
    if is_username_taken st1.clients username then
      match send_literal taken_text taken_send_len with
      | .error e => .error e
      | .ok bytes =>
        .ok (pthread_mutex_unlock (emit st1 [.send client_socket bytes, .close client_socket]),
             false)
    else
      match add_client st1.clients client_socket username with
      | .error e => .error e
      | .ok cs => .ok (pthread_mutex_unlock { st1 with clients := cs }, true)

/-- Line 115. -/
def joined_message (username : List Nat) : List Nat :=
  snprintf BUFFER_SIZE (precision 100 username ++ lit " has joined the chat.\n")

/-- Line 131. -/
def relay_message (username buffer : List Nat) : List Nat :=
  snprintf MSG_SIZE (lit "[" ++ precision 100 username ++ lit "]: " ++ precision 1024 buffer)

/-- Line 135. -/
def disconnected_message (username : List Nat) : List Nat :=
  snprintf BUFFER_SIZE (precision 100 username ++ lit " has disconnected.\n")

/-- Lines 87-116: the handshake.  Returns the local `username` string when
the handler goes on to the message loop, `none` when it returned at line 95. -/
def handshake (st : Server) (client_socket : Int) (name_read : Recv) (outcome : Nat → SendResult) :
    Except Fault (Server × Option (List Nat)) :=
  match recv_string name_read with
  | .error e => .error e
  | .ok username =>
    match try_register st client_socket username with
    | .error e => .error e
    | .ok (st1, false) => .ok (st1, none)
    | .ok (st1, true) =>
      match broadcast_message st1 (joined_message username) client_socket outcome with
      | .error e => .error e
      | .ok st2 => .ok (st2, some username)

/-- Lines 119-133: the message loop over the successive results of `recv`.
`outcome k` gives the outcomes of the sends of the `k`-th broadcast of this
handler.
Returns the state and the number of the next broadcast.  When the results
run out the thread is waiting in `recv`. -/
def active_loop (client_socket : Int) (username : List Nat) (outcome : Nat → Nat → SendResult) :
    Server → Nat → List Recv → Except Fault (Server × Nat)
  | _, _, [] => .error .blocked
  | st, k, .error :: _ => .ok (st, k)
  | st, k, .data bytes :: rest =>
    if bytes.length = 0 then .ok (st, k)
    else
      match recv_string (.data bytes) with
      | .error e => .error e
      | .ok buffer =>
        if strcmp buffer (lit "/quit\n") = 0 then .ok (st, k)
        else
          match broadcast_message st (relay_message username buffer) client_socket (outcome k) with
          | .error e => .error e
          | .ok st1 => active_loop client_socket username outcome st1 (k + 1) rest

/-- Lines 135-144: the departure broadcast, `remove_client`, `close`. -/
def closing (st : Server) (client_socket : Int) (username : List Nat) (outcome : Nat → SendResult) :
    Except Fault Server :=
  match broadcast_message st (disconnected_message username) client_socket outcome with
  | .error e => .error e
  | .ok st1 =>
    match remove_client st1 client_socket with
    | .error e => .error e
    | .ok st2 => .ok (emit st2 [.close client_socket])

/-- Lines 119-145: the message loop followed by the departure. -/
def serve (st : Server) (client_socket : Int) (username : List Nat) (reads : List Recv)
    (outcome : Nat → Nat → SendResult) (k : Nat) : Except Fault Server :=
  match active_loop client_socket username outcome st k reads with
  | .error e => .error e
  | .ok (st1, k1) => closing st1 client_socket username (outcome k1)

/-- The whole handler: `outcome 0` belongs to the joining broadcast. -/
def handle_client (st : Server) (client_socket : Int) (name_read : Recv) (reads : List Recv)
    (outcome : Nat → Nat → SendResult) : Except Fault Server :=
  match handshake st client_socket name_read (outcome 0) with
  | .error e => .error e
  | .ok (st1, none) => .ok st1
  | .ok (st1, some username) => serve st1 client_socket username reads outcome 1

/-! ## Observations on traces and tables -/

/-- The `send` calls of a trace, in order. -/
def sendsOf : List Event → List (Int × List Nat)
  | [] => []
  | .send sock bytes :: es => (sock, bytes) :: sendsOf es
  | _ :: es => sendsOf es

/-- The messages handed to `broadcast_message`, in order. -/
def broadcastsOf : List Event → List (List Nat)
  | [] => []
  | .broadcast message _ :: es => message :: broadcastsOf es
  | _ :: es => broadcastsOf es

/-- The sockets closed, in order. -/
def closesOf : List Event → List Int
  | [] => []
  | .close sock :: es => sock :: closesOf es
  | _ :: es => closesOf es

/-- The occupied slots of a table. -/
def occupied (clients : List Client) : List Client :=
  clients.filter (fun c => decide (c.socket ≠ 0))

/-- The slots `broadcast_message` must reach: occupied, not the sender. -/
def recipients (clients : List Client) (sender_socket : Int) : List Client :=
  clients.filter (fun c => decide (c.socket ≠ 0 ∧ c.socket ≠ sender_socket))

/-- No two occupied slots hold equal usernames (equal as `strcmp` sees them). -/
def NamesUnique (clients : List Client) : Prop :=
  clients.Pairwise
    (fun a b => a.socket ≠ 0 → b.socket ≠ 0 → strcmp a.username b.username ≠ 0)

/-- A sequence of registrations (lines 90-106), each given by the socket and
the name string of the connecting client.  The boolean says whether all of
them passed the name check. -/
def register_all : Server → List (Int × List Nat) → Except Fault (Server × Bool)
  | st, [] => .ok (st, true)
  | st, (sock, name) :: rest =>
    match try_register st sock name with
    | .error e => .error e
    | .ok (st1, ok1) =>
      match register_all st1 rest with
      | .error e => .error e
      | .ok (st2, ok2) => .ok (st2, ok1 && ok2)

/-- The states reached from the zeroed table by registrations and
`remove_client` calls that return. -/
inductive Reachable : Server → Prop where
  | start : Reachable initial
  | register (st st1 : Server) (sock : Int) (name : List Nat) (accepted : Bool) :
      Reachable st → try_register st sock name = .ok (st1, accepted) → Reachable st1
  | remove (st st1 : Server) (sock : Int) :
      Reachable st → remove_client st sock = .ok st1 → Reachable st1

/-- A result of `recv` on which the message loop stops: an error, no bytes,
or the string `"/quit\n"` (lines 121 and 126). -/
def endsLoop : Recv → Bool
  | .error => true
  | .data bytes => decide (bytes.length = 0) || decide (cstr bytes = lit "/quit\n")

/-- The slot description of a registration. -/
def slotOf (p : Int × List Nat) : Client := { socket := p.1, username := p.2 }

/-- A table whose ten slots are all occupied, by sockets 4 to 13. -/
def fullTable : List Client :=
  (List.range MAX_CLIENTS).map (fun (i : Nat) => Client.mk (Int.ofNat i + 4) [117, 48 + i])

/-- A table with two clients, `al` on socket 4 and `bo` on socket 5. -/
def twoClients : List Client :=
  [⟨4, lit "al"⟩, ⟨5, lit "bo"⟩] ++ List.replicate 8 zeroSlot

/-- A table with three clients, `al`, `bo` and `cy` on sockets 4, 5 and 6. -/
def threeClients : List Client :=
  [⟨4, lit "al"⟩, ⟨5, lit "bo"⟩, ⟨6, lit "cy"⟩] ++ List.replicate 7 zeroSlot

/-! ## C strings: basic facts -/

set_option maxRecDepth 100000

theorem strcmp_eq_zero_iff (a b : List Nat) : strcmp a b = 0 ↔ cstr a = cstr b := by
  induction a generalizing b with
  | nil =>
    cases b with
    | nil => simp [strcmp, cstr]
    | cons y ys =>
      by_cases hy : y = 0
      · simp [strcmp, cstr, hy]
      · simp [strcmp, cstr, hy]
  | cons x xs ih =>
    cases b with
    | nil =>
      by_cases hx : x = 0
      · simp [strcmp, cstr, hx]
      · simp [strcmp, cstr, hx]
    | cons y ys =>
      by_cases hxy : x = y
      · subst hxy
        by_cases hx : x = 0
        · simp [strcmp, cstr, hx]
        · simp [strcmp, cstr, hx, ih]
      · by_cases hx : x = 0
        · subst hx
          have hy : ¬ y = 0 := fun h => hxy h.symm
          have hlt : 0 < y := Nat.pos_of_ne_zero hy
          simp [strcmp, cstr, hy, hxy, hlt]
        · by_cases hy : y = 0
          · subst hy
            simp [strcmp, cstr, hx]
          · by_cases hlt : x < y
            · simp [strcmp, cstr, hx, hy, hxy, hlt]
            · simp [strcmp, cstr, hx, hy, hxy, hlt]

theorem cstr_idem (a : List Nat) : cstr (cstr a) = cstr a := by
  induction a with
  | nil => simp [cstr]
  | cons x xs ih =>
    by_cases hx : x = 0
    · simp [cstr, hx]
    · simp [cstr, hx, ih]

theorem cstr_eq_self (a : List Nat) (h : 0 ∉ a) : cstr a = a := by
  induction a with
  | nil => simp [cstr]
  | cons x xs ih =>
    have hx : ¬ x = 0 := fun e => h (by simp [e])
    have hxs : 0 ∉ xs := fun e => h (by simp [e])
    simp [cstr, hx, ih hxs]

/-! ## Traces -/

theorem sendsOf_append (a b : List Event) : sendsOf (a ++ b) = sendsOf a ++ sendsOf b := by
  induction a with
  | nil => rfl
  | cons e es ih => cases e <;> simp [sendsOf, ih]

theorem broadcastsOf_append (a b : List Event) :
    broadcastsOf (a ++ b) = broadcastsOf a ++ broadcastsOf b := by
  induction a with
  | nil => rfl
  | cons e es ih => cases e <;> simp [broadcastsOf, ih]

/-! ## The loop of `broadcast_message` -/

theorem sendsOf_broadcast_loop (message : List Nat) (sender : Int) (outcome : Nat → SendResult)
    (hs : ∀ j, outcome j ≠ .sigpipe) (clients : List Client) (i : Nat) (held : Bool) :
    sendsOf (broadcast_loop message sender outcome i clients held).1 =
      (recipients clients sender).map (fun c => (c.socket, cstr message)) := by
  induction clients generalizing i held with
  | nil => rfl
  | cons c rest ih =>
    by_cases hc : c.socket ≠ 0 ∧ c.socket ≠ sender
    · cases ho : outcome i with
      | sigpipe => exact absurd ho (hs i)
      | failed => simp [broadcast_loop, recipients, hc, ho, sendsOf, ih, List.filter_cons]
      | sent => simp [broadcast_loop, recipients, hc, ho, sendsOf, ih, List.filter_cons]
    · simp [broadcast_loop, recipients, hc, sendsOf, ih, List.filter_cons]

theorem broadcastsOf_broadcast_loop (message : List Nat) (sender : Int)
    (outcome : Nat → SendResult) (clients : List Client) (i : Nat) (held : Bool) :
    broadcastsOf (broadcast_loop message sender outcome i clients held).1 = [] := by
  induction clients generalizing i held with
  | nil => rfl
  | cons c rest ih =>
    by_cases hc : c.socket ≠ 0 ∧ c.socket ≠ sender
    · cases ho : outcome i with
      | sigpipe => simp [broadcast_loop, hc, ho, broadcastsOf]
      | failed => simp [broadcast_loop, hc, ho, broadcastsOf, ih]
      | sent => simp [broadcast_loop, hc, ho, broadcastsOf, ih]
    · simp [broadcast_loop, hc, broadcastsOf, ih]

/-- When no `send` raises SIGPIPE the loop runs to its end. -/
theorem broadcast_loop_alive (message : List Nat) (sender : Int) (outcome : Nat → SendResult)
    (hs : ∀ j, outcome j ≠ .sigpipe) (clients : List Client) (i : Nat) (held : Bool) :
    ∃ held1, (broadcast_loop message sender outcome i clients held).2 = some held1 := by
  induction clients generalizing i held with
  | nil => exact ⟨held, rfl⟩
  | cons c rest ih =>
    by_cases hc : c.socket ≠ 0 ∧ c.socket ≠ sender
    · cases ho : outcome i with
      | sigpipe => exact absurd ho (hs i)
      | failed => simpa [broadcast_loop, hc, ho] using ih (i + 1) held
      | sent => simpa [broadcast_loop, hc, ho] using ih (i + 1) false
    · simpa [broadcast_loop, hc] using ih (i + 1) false

theorem broadcast_loop_free (message : List Nat) (sender : Int) (outcome : Nat → SendResult)
    (hs : ∀ j, outcome j ≠ .sigpipe) (clients : List Client) (i : Nat) :
    (broadcast_loop message sender outcome i clients false).2 = some false := by
  induction clients generalizing i with
  | nil => rfl
  | cons c rest ih =>
    by_cases hc : c.socket ≠ 0 ∧ c.socket ≠ sender
    · cases ho : outcome i with
      | sigpipe => exact absurd ho (hs i)
      | failed => simp [broadcast_loop, hc, ho, ih]
      | sent => simp [broadcast_loop, hc, ho, ih]
    · simp [broadcast_loop, hc, ih]

/-- When some slot is free or belongs to the sender, that iteration reaches the
unlock and, no `send` raising SIGPIPE, the mutex is free when the loop ends. -/
theorem broadcast_loop_released (message : List Nat) (sender : Int)
    (outcome : Nat → SendResult) (hs : ∀ j, outcome j ≠ .sigpipe)
    (clients : List Client) (i : Nat) (held : Bool)
    (h : ∃ c ∈ clients, ¬ (c.socket ≠ 0 ∧ c.socket ≠ sender)) :
    (broadcast_loop message sender outcome i clients held).2 = some false := by
  induction clients generalizing i held with
  | nil => simp at h
  | cons c rest ih =>
    by_cases hc : c.socket ≠ 0 ∧ c.socket ≠ sender
    · have hrest : ∃ d ∈ rest, ¬ (d.socket ≠ 0 ∧ d.socket ≠ sender) := by
        obtain ⟨d, hd, hnd⟩ := h
        rcases List.mem_cons.mp hd with e | e
        · subst e; exact absurd hc hnd
        · exact ⟨d, e, hnd⟩
      cases ho : outcome i with
      | sigpipe => exact absurd ho (hs i)
      | failed => simp [broadcast_loop, hc, ho, ih _ _ hrest]
      | sent => simp [broadcast_loop, hc, ho, broadcast_loop_free _ _ _ hs]
    · simp [broadcast_loop, hc, broadcast_loop_free _ _ _ hs]

theorem broadcast_message_ok (st : Server) (message : List Nat) (sender : Int)
    (outcome : Nat → SendResult) (held1 : Bool) (hfree : st.held = false)
    (hloop : (broadcast_loop message sender outcome 0 st.clients true).2 = some held1) :
    broadcast_message st message sender outcome =
      .ok { clients := st.clients, held := held1,
            trace := st.trace ++ [.broadcast message sender, .lock] ++
              (broadcast_loop message sender outcome 0 st.clients true).1 } := by
  simp [broadcast_message, pthread_mutex_lock, emit, hfree, hloop]

theorem broadcast_message_killed (st : Server) (message : List Nat) (sender : Int)
    (outcome : Nat → SendResult) (hfree : st.held = false)
    (hloop : (broadcast_loop message sender outcome 0 st.clients true).2 = none) :
    broadcast_message st message sender outcome =
      .error (.killed (st.trace ++ [.broadcast message sender, .lock] ++
        (broadcast_loop message sender outcome 0 st.clients true).1)) := by
  simp [broadcast_message, pthread_mutex_lock, emit, hfree, hloop]

/-! ## Broadcast: recipients -/

/-- As long as no `send` raises SIGPIPE: called with the mutex free,
`broadcast_message` returns, leaves the clients table as it was, and its
`send` calls are exactly one per occupied slot whose socket differs from the
sender's, in slot order, each carrying the message, whichever of them
return -1. -/
theorem broadcast_message_recipients (st : Server) (message : List Nat) (sender_socket : Int)
    (outcome : Nat → SendResult) (hfree : st.held = false)
    (hs : ∀ j, outcome j ≠ .sigpipe) :
    ∃ st1 evs, broadcast_message st message sender_socket outcome = .ok st1 ∧
      st1.clients = st.clients ∧
      st1.trace = st.trace ++ evs ∧
      sendsOf evs =
        (recipients st.clients sender_socket).map (fun c => (c.socket, cstr message)) ∧
      (∀ p ∈ sendsOf evs, p.1 ≠ sender_socket) := by
  have key :
      sendsOf ([Event.broadcast message sender_socket, Event.lock] ++
        (broadcast_loop message sender_socket outcome 0 st.clients true).1) =
      (recipients st.clients sender_socket).map (fun c => (c.socket, cstr message)) := by
    rw [sendsOf_append, sendsOf_broadcast_loop _ _ _ hs]
    simp [sendsOf]
  obtain ⟨held1, hl⟩ := broadcast_loop_alive message sender_socket outcome hs st.clients 0 true
  refine ⟨_, [Event.broadcast message sender_socket, Event.lock] ++
      (broadcast_loop message sender_socket outcome 0 st.clients true).1,
    broadcast_message_ok st message sender_socket outcome held1 hfree hl, rfl, ?_, key, ?_⟩
  · simp
  · intro p hp
    rw [key] at hp
    obtain ⟨c, hc, rfl⟩ := List.mem_map.mp hp
    have := (List.mem_filter.mp hc).2
    simp at this
    exact this.2

/-- C5 (the code departs from it): `al` (socket 4) broadcasts `hi` to the
three-client table, whose recipients are `bo` (socket 5) and `cy` (socket 6).
When the `send` to `bo` returns -1 the loop goes on and `cy` is sent the
message; when the `send` to `bo` raises SIGPIPE the process ends there:
`cy` is never sent to, so the sends attempted depend on how the first one
failed. -/
theorem broadcast_message_sigpipe_stops :
    (recipients threeClients 4).map (fun c => c.socket) = [5, 6] ∧
    (broadcast_message ⟨threeClients, false, []⟩ (lit "hi") 4
        (fun i => if i = 1 then SendResult.failed else SendResult.sent)).map
        (fun s => sendsOf s.trace) = .ok [(5, lit "hi"), (6, lit "hi")] ∧
    broadcast_message ⟨threeClients, false, []⟩ (lit "hi") 4
        (fun i => if i = 1 then SendResult.sigpipe else SendResult.sent) =
      .error (.killed [.broadcast (lit "hi") 4, .lock, .slotRead 0 true, .unlock true,
        .slotRead 1 false, .send 5 (lit "hi"), .sigpipe]) ∧
    sendsOf [.broadcast (lit "hi") 4, .lock, .slotRead 0 true, .unlock true,
        .slotRead 1 false, .send 5 (lit "hi"), .sigpipe] = [(5, lit "hi")] := by
  refine ⟨by decide, by decide, by decide, by decide⟩

/-! ## Broadcast: the mutex -/

/-- C10 (the code departs from it): with `al` sending to the two-client table
and no `send` failing, the mutex is released at the end of the first
iteration, slots 1 to 9 are read without it, and it is unlocked nine more
times while not held; with all ten slots occupied by other clients and every
`send` failing, no iteration unlocks and the call returns holding the mutex. -/
theorem broadcast_message_mutex_misuse :
    (∃ st1, broadcast_message ⟨twoClients, false, []⟩ (lit "hi") 4
        (fun _ => SendResult.sent) = .ok st1 ∧
      st1.trace.take 7 =
        [.broadcast (lit "hi") 4, .lock, .slotRead 0 true, .unlock true,
         .slotRead 1 false, .send 5 (lit "hi"), .unlock false] ∧
      st1.trace.count (.unlock true) = 1 ∧
      st1.trace.count (.unlock false) = 9 ∧
      (∀ i, 1 ≤ i → i < MAX_CLIENTS → Event.slotRead i false ∈ st1.trace)) ∧
    (∃ st2, broadcast_message ⟨fullTable, false, []⟩ (lit "hi") 14
        (fun _ => SendResult.failed) = .ok st2 ∧
      st2.held = true ∧
      st2.trace.count (.unlock true) = 0 ∧ st2.trace.count (.unlock false) = 0) := by
  refine ⟨⟨_, broadcast_message_ok _ _ _ _ false rfl (by decide), ?_, ?_, ?_, ?_⟩,
          ⟨_, broadcast_message_ok _ _ _ _ true rfl (by decide), ?_, ?_, ?_⟩⟩
  · decide
  · decide
  · decide
  · decide
  · decide
  · decide
  · decide

/-! ## The name check -/

theorem is_username_taken_eq_true_iff (clients : List Client) (username : List Nat) :
    is_username_taken clients username = true ↔
      ∃ c ∈ clients, c.socket ≠ 0 ∧ cstr c.username = cstr username := by
  induction clients with
  | nil => simp [is_username_taken]
  | cons c rest ih =>
    by_cases hc : c.socket ≠ 0 ∧ strcmp c.username username = 0
    · rw [is_username_taken, if_pos hc]
      simp only [true_iff]
      exact ⟨c, List.mem_cons_self _ _, hc.1, (strcmp_eq_zero_iff _ _).mp hc.2⟩
    · rw [is_username_taken, if_neg hc, ih]
      constructor
      · rintro ⟨d, hd, h⟩
        exact ⟨d, List.mem_cons_of_mem _ hd, h⟩
      · rintro ⟨d, hd, h⟩
        rcases List.mem_cons.mp hd with e | e
        · subst e
          exact absurd ⟨h.1, (strcmp_eq_zero_iff _ _).mpr h.2⟩ hc
        · exact ⟨d, e, h⟩

theorem is_username_taken_eq_false_iff (clients : List Client) (username : List Nat) :
    is_username_taken clients username = false ↔
      ∀ c ∈ clients, c.socket ≠ 0 → cstr c.username ≠ cstr username := by
  rw [← Bool.not_eq_true, is_username_taken_eq_true_iff]
  constructor
  · intro h c hc hs he
    exact h ⟨c, hc, hs, he⟩
  · rintro h ⟨c, hc, hs, he⟩
    exact h c hc hs he

theorem send_literal_taken : send_literal taken_text taken_send_len = .ok (taken_text ++ [0]) := by
  have h : taken_send_len ≤ taken_text.length + 1 := by decide
  have h2 : (taken_text ++ [0]).take taken_send_len = taken_text ++ [0] := by decide
  rw [send_literal, if_pos h, h2]

/-- The path through lines 90-95 when the name is taken. -/
theorem try_register_taken (st : Server) (client_socket : Int) (username : List Nat)
    (hfree : st.held = false) (htaken : is_username_taken st.clients username = true) :
    try_register st client_socket username =
      .ok ({ clients := st.clients, held := false,
             trace := st.trace ++ [.lock, .send client_socket (taken_text ++ [0]),
               .close client_socket, .unlock true] }, false) := by
  simp [try_register, pthread_mutex_lock, pthread_mutex_unlock, emit, hfree, htaken,
    send_literal_taken]

/-! ## Rejection of a taken name -/

/-- C8 (the code departs from it): on a name collision the `send` carries 40
bytes, the 39 bytes of the text followed by the zero byte that terminates the
literal, not the 39 bytes of the text alone. -/
theorem taken_notice_bytes :
    taken_text.length = 39 ∧
    (∃ st1, try_register ⟨twoClients, false, []⟩ 6 (lit "bo") = .ok (st1, false) ∧
      sendsOf st1.trace = [(6, taken_text ++ [0])] ∧
      (taken_text ++ [0]).length = 40 ∧
      sendsOf st1.trace ≠ [(6, taken_text)] ∧
      closesOf st1.trace = [6]) := by
  refine ⟨by decide, _, try_register_taken _ 6 (lit "bo") rfl (by decide), ?_, ?_, ?_, ?_⟩
  · decide
  · decide
  · decide
  · decide

/-! ## The handshake when no slot is free -/

/-- C1 (the code departs from it): with all ten slots occupied and the name
`zed` held by none of them, the handshake leaves the table unchanged but does
not reject: it returns into the message loop after broadcasting
`zed has joined the chat.` to the ten clients, closes nothing, and the
handler then relays the payload `hi`; the socket is closed only when the
connection ends. -/
theorem handle_client_full_table :
    is_username_taken fullTable (lit "zed") = false ∧
    (∀ c ∈ fullTable, c.socket ≠ 0) ∧ fullTable.length = MAX_CLIENTS ∧
    (handshake ⟨fullTable, false, []⟩ 14 (.data (lit "zed")) (fun _ => SendResult.sent)).map
        (fun r => (r.1.clients, r.2)) = .ok (fullTable, some (lit "zed")) ∧
    (handshake ⟨fullTable, false, []⟩ 14 (.data (lit "zed")) (fun _ => SendResult.sent)).map
        (fun r => (broadcastsOf r.1.trace, closesOf r.1.trace)) =
      .ok ([lit "zed has joined the chat.\n"], []) ∧
    (handshake ⟨fullTable, false, []⟩ 14 (.data (lit "zed")) (fun _ => SendResult.sent)).map
        (fun r => (sendsOf r.1.trace).map Prod.fst) =
      .ok [4, 5, 6, 7, 8, 9, 10, 11, 12, 13] ∧
    (handle_client ⟨fullTable, false, []⟩ 14 (.data (lit "zed")) [.data (lit "hi"), .data []]
        (fun _ _ => SendResult.sent)).map (fun s => (s.clients, closesOf s.trace)) =
      .ok (fullTable, [14]) ∧
    (handle_client ⟨fullTable, false, []⟩ 14 (.data (lit "zed")) [.data (lit "hi"), .data []]
        (fun _ _ => SendResult.sent)).map (fun s => (broadcastsOf s.trace, (sendsOf s.trace).length)) =
      .ok ([lit "zed has joined the chat.\n", lit "[zed]: hi", lit "zed has disconnected.\n"],
        30) := by
  refine ⟨by decide, by decide, by decide, by decide, by decide, by decide, by decide,
    by decide⟩

/-! ## The length of the name read at the handshake -/

/-- C9 (the code departs from it): a handshake read of no bytes registers the
empty name; a read of 100 bytes is placed in the buffer and then copied by
`strcpy` past the 100-byte `username` field of the slot; a read of the full
1024 bytes, and a failed read, put the terminator outside the buffer. -/
theorem handshake_name_length_unchecked :
    (handshake initial 4 (.data []) (fun _ => SendResult.sent)).map
        (fun r => (r.1.clients.head?, r.2)) = .ok (some ⟨4, []⟩, some []) ∧
    recv_string (.data (List.replicate 100 97)) = .ok (List.replicate 100 97) ∧
    strlen (List.replicate 100 97) = USERNAME_SIZE ∧
    add_client initial.clients 4 (List.replicate 100 97) = .error .outOfBounds ∧
    handshake initial 4 (.data (List.replicate 100 97)) (fun _ => SendResult.sent) =
      .error .outOfBounds ∧
    handshake initial 4 (.data (List.replicate BUFFER_SIZE 97)) (fun _ => SendResult.sent) =
      .error .outOfBounds ∧
    handshake initial 4 .error (fun _ => SendResult.sent) = .error .outOfBounds := by
  refine ⟨by decide, by decide, by decide, by decide, by decide, ?_, by decide⟩
  simp [handshake, recv_string]

/-! ## Registration: what `try_register` and `remove_client` do to the table -/

theorem add_client_mem (clients clients1 : List Client) (sock : Int) (name : List Nat)
    (h : add_client clients sock name = .ok clients1) :
    ∀ b ∈ clients1, b ∈ clients ∨ b = ⟨sock, cstr name⟩ := by
  induction clients generalizing clients1 with
  | nil =>
    simp [add_client] at h
    subst h
    simp
  | cons c rest ih =>
    by_cases hc : c.socket = 0
    · by_cases hl : strlen name < USERNAME_SIZE
      · simp [add_client, hc, strcpy, hl] at h
        subst h
        intro b hb
        rcases List.mem_cons.mp hb with e | e
        · exact Or.inr e
        · exact Or.inl (List.mem_cons_of_mem _ e)
      · simp [add_client, hc, strcpy, hl] at h
    · cases hr : add_client rest sock name with
      | error e => simp [add_client, hc, hr] at h
      | ok rest1 =>
        simp [add_client, hc, hr] at h
        subst h
        intro b hb
        rcases List.mem_cons.mp hb with e | e
        · exact Or.inl (by simp [e])
        · rcases ih rest1 hr b e with h1 | h1
          · exact Or.inl (List.mem_cons_of_mem _ h1)
          · exact Or.inr h1

theorem add_client_unique (clients clients1 : List Client) (sock : Int) (name : List Nat)
    (hu : NamesUnique clients) (hfree : is_username_taken clients name = false)
    (h : add_client clients sock name = .ok clients1) : NamesUnique clients1 := by
  induction clients generalizing clients1 with
  | nil =>
    simp [add_client] at h
    subst h
    exact hu
  | cons c rest ih =>
    have hfree1 := (is_username_taken_eq_false_iff _ _).mp hfree
    have hrestfree : is_username_taken rest name = false :=
      (is_username_taken_eq_false_iff _ _).mpr
        (fun d hd => hfree1 d (List.mem_cons_of_mem _ hd))
    have hu1 := List.pairwise_cons.mp hu
    by_cases hc : c.socket = 0
    · by_cases hl : strlen name < USERNAME_SIZE
      · simp [add_client, hc, strcpy, hl] at h
        subst h
        refine List.pairwise_cons.mpr ⟨?_, hu1.2⟩
        intro b hb _ hbs
        simp only [ne_eq, strcmp_eq_zero_iff, cstr_idem]
        exact fun e => hfree1 b (List.mem_cons_of_mem _ hb) hbs e.symm
      · simp [add_client, hc, strcpy, hl] at h
    · cases hr : add_client rest sock name with
      | error e => simp [add_client, hc, hr] at h
      | ok rest1 =>
        simp [add_client, hc, hr] at h
        subst h
        refine List.pairwise_cons.mpr ⟨?_, ih rest1 hu1.2 hrestfree hr⟩
        intro b hb hcs hbs
        rcases add_client_mem rest rest1 sock name hr b hb with e | e
        · exact hu1.1 b e hcs hbs
        · subst e
          simp only [ne_eq, strcmp_eq_zero_iff, cstr_idem]
          exact hfree1 c (List.mem_cons_self _ _) hcs

theorem remove_slot_mem (clients : List Client) (socket : Int) :
    ∀ b ∈ remove_slot clients socket, b ∈ clients ∨ b = zeroSlot := by
  induction clients with
  | nil => simp [remove_slot]
  | cons c rest ih =>
    intro b hb
    by_cases hc : c.socket = socket
    · simp [remove_slot, hc] at hb
      rcases hb with e | e
      · exact Or.inr e
      · exact Or.inl (List.mem_cons_of_mem _ e)
    · simp [remove_slot, hc] at hb
      rcases hb with e | e
      · exact Or.inl (by simp [e])
      · rcases ih b e with h1 | h1
        · exact Or.inl (List.mem_cons_of_mem _ h1)
        · exact Or.inr h1

theorem remove_slot_unique (clients : List Client) (socket : Int) (hu : NamesUnique clients) :
    NamesUnique (remove_slot clients socket) := by
  induction clients with
  | nil => simpa [remove_slot] using hu
  | cons c rest ih =>
    have hu1 := List.pairwise_cons.mp hu
    by_cases hc : c.socket = socket
    · simp only [remove_slot, hc, if_true]
      refine List.pairwise_cons.mpr ⟨?_, hu1.2⟩
      intro b _ hz
      exact absurd rfl hz
    · simp only [remove_slot, hc, if_false]
      refine List.pairwise_cons.mpr ⟨?_, ih hu1.2⟩
      intro b hb hcs hbs
      rcases remove_slot_mem rest socket b hb with e | e
      · exact hu1.1 b e hcs hbs
      · subst e
        exact absurd rfl hbs

theorem try_register_inv (st st1 : Server) (sock : Int) (name : List Nat) (accepted : Bool)
    (h : try_register st sock name = .ok (st1, accepted)) :
    st.held = false ∧ st1.held = false ∧
    ((accepted = false ∧ is_username_taken st.clients name = true ∧ st1.clients = st.clients) ∨
     (accepted = true ∧ is_username_taken st.clients name = false ∧
        add_client st.clients sock name = .ok st1.clients)) := by
  by_cases hh : st.held = true
  · simp [try_register, pthread_mutex_lock, hh] at h
  · have hh1 : st.held = false := by simpa using hh
    by_cases ht : is_username_taken st.clients name = true
    · simp [try_register, pthread_mutex_lock, hh1, ht, send_literal_taken,
        pthread_mutex_unlock, emit] at h
      obtain ⟨h1, h2⟩ := h
      subst h1
      exact ⟨hh1, rfl, Or.inl ⟨h2, ht, rfl⟩⟩
    · have ht1 : is_username_taken st.clients name = false := by simpa using ht
      cases ha : add_client st.clients sock name with
      | error e => simp [try_register, pthread_mutex_lock, hh1, ht1, ha] at h
      | ok cs =>
        simp [try_register, pthread_mutex_lock, hh1, ht1, ha, pthread_mutex_unlock] at h
        obtain ⟨h1, h2⟩ := h
        subst h1
        exact ⟨hh1, rfl, Or.inr ⟨h2, ht1, rfl⟩⟩

theorem remove_client_inv (st st1 : Server) (socket : Int)
    (h : remove_client st socket = .ok st1) :
    st.held = false ∧ st1.held = false ∧ st1.clients = remove_slot st.clients socket := by
  by_cases hh : st.held = true
  · simp [remove_client, pthread_mutex_lock, hh] at h
  · have hh1 : st.held = false := by simpa using hh
    simp [remove_client, pthread_mutex_lock, hh1, pthread_mutex_unlock] at h
    subst h
    exact ⟨hh1, rfl, rfl⟩

theorem namesUnique_initial : NamesUnique initial.clients := by
  unfold NamesUnique initial
  simp [List.pairwise_replicate, zeroSlot]

/-! ## Name uniqueness -/

/-- C4: in every state reached from the zeroed table by registrations
(the check-then-insert of `handle_client`) and `remove_client` calls, no two
occupied slots hold usernames that `strcmp` finds equal. -/
theorem reachable_names_unique (st : Server) (h : Reachable st) : NamesUnique st.clients := by
  induction h with
  | start => exact namesUnique_initial
  | register st st1 sock name accepted _ hstep ih =>
    obtain ⟨_, _, hcase⟩ := try_register_inv st st1 sock name accepted hstep
    rcases hcase with ⟨_, _, hc⟩ | ⟨_, hfree, hadd⟩
    · rw [hc]; exact ih
    · exact add_client_unique st.clients st1.clients sock name ih hfree hadd
  | remove st st1 sock _ hstep ih =>
    obtain ⟨_, _, hc⟩ := remove_client_inv st st1 sock hstep
    rw [hc]
    exact remove_slot_unique st.clients sock ih

/-- C4 at the state reached by registering `al` on socket 4, registering `bo`
on socket 5 and removing socket 4. -/
theorem reachable_names_unique_witness :
    Reachable ⟨zeroSlot :: ⟨5, lit "bo"⟩ :: List.replicate 8 zeroSlot, false,
        [.lock, .unlock true, .lock, .unlock true, .lock, .unlock true]⟩ ∧
    NamesUnique (zeroSlot :: ⟨5, lit "bo"⟩ :: List.replicate 8 zeroSlot) :=
  have h1 : Reachable ⟨⟨4, lit "al"⟩ :: List.replicate 9 zeroSlot, false,
      [.lock, .unlock true]⟩ :=
    Reachable.register initial _ 4 (lit "al") true Reachable.start (by decide)
  have h2 : Reachable ⟨twoClients, false, [.lock, .unlock true, .lock, .unlock true]⟩ :=
    Reachable.register _ _ 5 (lit "bo") true h1 (by decide)
  have h3 : Reachable ⟨zeroSlot :: ⟨5, lit "bo"⟩ :: List.replicate 8 zeroSlot, false,
      [.lock, .unlock true, .lock, .unlock true, .lock, .unlock true]⟩ :=
    Reachable.remove _ _ 4 h2 (by decide)
  ⟨h3, reachable_names_unique _ h3⟩

/-! ## Registrations with distinct names -/

theorem add_client_first_free (pre rest : List Client) (sock : Int) (name : List Nat)
    (hpre : ∀ c ∈ pre, c.socket ≠ 0) (hlen : strlen name < USERNAME_SIZE) :
    add_client (pre ++ zeroSlot :: rest) sock name = .ok (pre ++ ⟨sock, cstr name⟩ :: rest) := by
  induction pre with
  | nil => simp [add_client, zeroSlot, strcpy, hlen]
  | cons c cs ih =>
    have hc : ¬ c.socket = 0 := hpre c (List.mem_cons_self _ _)
    have hcs : ∀ d ∈ cs, d.socket ≠ 0 := fun d hd => hpre d (List.mem_cons_of_mem _ hd)
    simp [add_client, hc, ih hcs]

theorem try_register_fresh (done : List (Int × List Nat)) (k : Nat) (tr : List Event)
    (sock : Int) (name : List Nat)
    (hsock : ∀ p ∈ done, p.1 ≠ 0) (hstr : ∀ p ∈ done, 0 ∉ p.2)
    (hnew : name ∉ done.map Prod.snd) (hnul : 0 ∉ name) (hlen : name.length < USERNAME_SIZE) :
    try_register ⟨done.map slotOf ++ List.replicate (k + 1) zeroSlot, false, tr⟩ sock name =
      .ok (⟨(done ++ [(sock, name)]).map slotOf ++ List.replicate k zeroSlot, false,
            tr ++ [.lock, .unlock true]⟩, true) := by
  have hfree : is_username_taken (done.map slotOf ++ List.replicate (k + 1) zeroSlot) name
      = false := by
    rw [is_username_taken_eq_false_iff]
    intro c hc hs he
    rcases List.mem_append.mp hc with h1 | h1
    · obtain ⟨p, hp, rfl⟩ := List.mem_map.mp h1
      simp only [slotOf] at he
      rw [cstr_eq_self _ (hstr p hp), cstr_eq_self _ hnul] at he
      exact hnew (List.mem_map.mpr ⟨p, hp, he⟩)
    · have := List.eq_of_mem_replicate h1
      subst this
      exact hs rfl
  have hadd := add_client_first_free (done.map slotOf) (List.replicate k zeroSlot) sock name
    (by
      intro c hc
      obtain ⟨p, hp, rfl⟩ := List.mem_map.mp hc
      exact hsock p hp)
    (by rw [strlen, cstr_eq_self _ hnul]; exact hlen)
  rw [cstr_eq_self _ hnul] at hadd
  have hrep : List.replicate (k + 1) zeroSlot = zeroSlot :: List.replicate k zeroSlot := rfl
  rw [hrep] at hfree ⊢
  simp [try_register, pthread_mutex_lock, pthread_mutex_unlock, hfree, hadd, slotOf]

theorem register_all_fresh (regs done : List (Int × List Nat)) (tr : List Event)
    (hN : done.length + regs.length ≤ MAX_CLIENTS)
    (hnames : ((done ++ regs).map Prod.snd).Nodup)
    (hsock : ∀ p ∈ done ++ regs, p.1 ≠ 0)
    (hstr : ∀ p ∈ done ++ regs, 0 ∉ p.2 ∧ p.2.length < USERNAME_SIZE) :
    ∃ tr1, register_all
        ⟨done.map slotOf ++ List.replicate (MAX_CLIENTS - done.length) zeroSlot, false, tr⟩ regs =
      .ok (⟨(done ++ regs).map slotOf ++
              List.replicate (MAX_CLIENTS - (done ++ regs).length) zeroSlot, false, tr1⟩,
           true) := by
  induction regs generalizing done tr with
  | nil => exact ⟨tr, by simp [register_all]⟩
  | cons p rest ih =>
    obtain ⟨sock, name⟩ := p
    have hk : MAX_CLIENTS - done.length = (MAX_CLIENTS - (done.length + 1)) + 1 := by
      simp only [List.length_cons] at hN
      omega
    have hmem : (sock, name) ∈ done ++ (sock, name) :: rest := by simp
    have hnd := hnames
    rw [List.map_append, List.map_cons, List.nodup_append] at hnd
    have hnew : name ∉ done.map Prod.snd := by
      intro hin
      exact hnd.2.2 hin (List.mem_cons_self _ _)
    have hstep := try_register_fresh done (MAX_CLIENTS - (done.length + 1)) tr sock name
      (fun q hq => hsock q (List.mem_append_left _ hq))
      (fun q hq => (hstr q (List.mem_append_left _ hq)).1)
      hnew (hstr _ hmem).1 (hstr _ hmem).2
    rw [← hk] at hstep
    have happ : done ++ (sock, name) :: rest = (done ++ [(sock, name)]) ++ rest := by simp
    obtain ⟨tr1, hrest⟩ := ih (done ++ [(sock, name)]) (tr ++ [.lock, .unlock true])
      (by simp only [List.length_append, List.length_cons, List.length_nil] at hN ⊢; omega)
      (by rw [← happ]; exact hnames)
      (by rw [← happ]; exact hsock)
      (by rw [← happ]; exact hstr)
    have hlen1 : (done ++ [(sock, name)]).length = done.length + 1 := by simp
    rw [hlen1] at hrest
    refine ⟨tr1, ?_⟩
    rw [register_all, hstep]
    simp only [hrest, happ, Bool.and_self]

theorem occupied_registered (regs : List (Int × List Nat)) (k : Nat)
    (hsock : ∀ p ∈ regs, p.1 ≠ 0) :
    occupied (regs.map slotOf ++ List.replicate k zeroSlot) = regs.map slotOf := by
  unfold occupied
  rw [List.filter_append]
  have h1 : (regs.map slotOf).filter (fun c => decide (c.socket ≠ 0)) = regs.map slotOf := by
    apply List.filter_eq_self.mpr
    intro c hc
    obtain ⟨p, hp, rfl⟩ := List.mem_map.mp hc
    simpa [slotOf] using hsock p hp
  have h2 : (List.replicate k zeroSlot).filter (fun c => decide (c.socket ≠ 0)) = [] := by
    apply List.filter_eq_nil_iff.mpr
    intro c hc
    have := List.eq_of_mem_replicate hc
    subst this
    simp [zeroSlot]
  rw [h1, h2, List.append_nil]

/-- C3: any `N <= MAX_CLIENTS` registrations with pairwise distinct names and
non-zero sockets, the names being strings that fit the `username` field,
applied in turn to the zeroed table, all pass the name check; afterwards the
table has its ten slots, exactly `N` of them occupied, and the occupied slots
hold the `N` (socket, name) pairs, in order, in slots `0 .. N-1`. -/
theorem register_all_distinct (regs : List (Int × List Nat))
    (hN : regs.length ≤ MAX_CLIENTS)
    (hnames : (regs.map Prod.snd).Nodup)
    (hsock : ∀ p ∈ regs, p.1 ≠ 0)
    (hstr : ∀ p ∈ regs, 0 ∉ p.2 ∧ p.2.length < USERNAME_SIZE) :
    ∃ st1, register_all initial regs = .ok (st1, true) ∧
      st1.clients = regs.map slotOf ++ List.replicate (MAX_CLIENTS - regs.length) zeroSlot ∧
      st1.clients.length = MAX_CLIENTS ∧
      occupied st1.clients = regs.map slotOf ∧
      (occupied st1.clients).length = regs.length := by
  obtain ⟨tr1, h⟩ := register_all_fresh regs [] [] (by simpa using hN) (by simpa using hnames)
    (by simpa using hsock) (by simpa using hstr)
  simp only [List.map_nil, List.nil_append, List.length_nil, Nat.sub_zero] at h
  refine ⟨_, h, rfl, ?_, ?_, ?_⟩
  · simp only [List.length_append, List.length_map, List.length_replicate]
    omega
  · exact occupied_registered regs _ hsock
  · show (occupied (regs.map slotOf ++ _)).length = regs.length
    rw [occupied_registered regs _ hsock, List.length_map]

/-- C3 for the two registrations `al` on socket 4 and `bo` on socket 5. -/
theorem register_all_distinct_witness :
    ∃ st1, register_all initial [(4, lit "al"), (5, lit "bo")] = .ok (st1, true) ∧
      st1.clients = [(4, lit "al"), (5, lit "bo")].map slotOf ++
        List.replicate (MAX_CLIENTS - [((4 : Int), lit "al"), (5, lit "bo")].length) zeroSlot ∧
      st1.clients.length = MAX_CLIENTS ∧
      occupied st1.clients = [(4, lit "al"), (5, lit "bo")].map slotOf ∧
      (occupied st1.clients).length = [((4 : Int), lit "al"), (5, lit "bo")].length :=
  register_all_distinct [(4, lit "al"), (5, lit "bo")] (by decide) (by decide) (by decide)
    (by decide)

/-! ## The messages built by `handle_client` -/

theorem precision_eq_self (n : Nat) (s : List Nat) (hnul : 0 ∉ s) (hlen : s.length ≤ n) :
    precision n s = s := by
  rw [precision, cstr_eq_self _ hnul]
  exact List.take_of_length_le hlen

theorem zero_not_mem_lit_bracket : (0 : Nat) ∉ lit "[" := by decide

theorem zero_not_mem_lit_colon : (0 : Nat) ∉ lit "]: " := by decide

theorem zero_not_mem_lit_disconnected : (0 : Nat) ∉ lit " has disconnected.\n" := by decide

theorem relay_message_eq (username payload : List Nat)
    (hname : 0 ∉ username ∧ username.length < USERNAME_SIZE)
    (hnul : 0 ∉ payload) (hlen : payload.length < BUFFER_SIZE) :
    relay_message username payload = lit "[" ++ username ++ lit "]: " ++ payload := by
  have hu : username.length ≤ 100 := by
    have := hname.2
    simp only [USERNAME_SIZE] at this
    omega
  have hp : payload.length ≤ 1024 := by
    simp only [BUFFER_SIZE] at hlen
    omega
  rw [relay_message, precision_eq_self 100 _ hname.1 hu, precision_eq_self 1024 _ hnul hp,
    snprintf]
  apply List.take_of_length_le
  have h1 : (lit "[").length = 1 := by decide
  have h2 : (lit "]: ").length = 3 := by decide
  simp only [List.length_append, h1, h2, MSG_SIZE]
  simp only [BUFFER_SIZE] at hlen
  omega

theorem disconnected_message_eq (username : List Nat)
    (hname : 0 ∉ username ∧ username.length < USERNAME_SIZE) :
    disconnected_message username = username ++ lit " has disconnected.\n" := by
  have hu : username.length ≤ 100 := by
    have := hname.2
    simp only [USERNAME_SIZE] at this
    omega
  rw [disconnected_message, precision_eq_self 100 _ hname.1 hu, snprintf]
  apply List.take_of_length_le
  have h1 : (lit " has disconnected.\n").length = 19 := by decide
  simp only [List.length_append, h1, BUFFER_SIZE]
  omega

theorem bracket_cons_ne (u : List Nat) : 91 :: u ≠ u ++ [32] := by
  induction u with
  | nil => decide
  | cons a u1 ih =>
    intro h
    simp only [List.cons_append, List.cons.injEq] at h
    obtain ⟨ha, ht⟩ := h
    subst ha
    exact ih ht

/-- A relayed message is never the departure message of the same name. -/
theorem relay_message_ne_disconnected (username buffer : List Nat)
    (hname : 0 ∉ username ∧ username.length < USERNAME_SIZE) :
    relay_message username buffer ≠ username ++ lit " has disconnected.\n" := by
  have hu : username.length ≤ 100 := by
    have := hname.2
    simp only [USERNAME_SIZE] at this
    omega
  intro h
  have h1 := congrArg (List.take (username.length + 1)) h
  rw [relay_message, precision_eq_self 100 _ hname.1 hu, snprintf, List.take_take] at h1
  have hmin : min (username.length + 1) (MSG_SIZE - 1) = username.length + 1 := by
    simp only [MSG_SIZE]
    omega
  have hb : lit "[" = [91] := by decide
  have hd : lit " has disconnected.\n" = 32 :: lit "has disconnected.\n" := by decide
  rw [hmin, hb, hd] at h1
  have hl : List.take (username.length + 1)
      ([91] ++ username ++ lit "]: " ++ precision 1024 buffer) = 91 :: username := by
    simp only [List.singleton_append, List.cons_append, List.take_succ_cons, List.append_assoc,
      List.nil_append]
    rw [List.take_left]
  have hr : List.take (username.length + 1) (username ++ 32 :: lit "has disconnected.\n")
      = username ++ [32] := by
    rw [List.take_append_eq_append_take]
    simp
  rw [hl, hr] at h1
  exact bracket_cons_ne username h1

/-! ## Relaying a payload -/

theorem cstr_quit : cstr (lit "/quit\n") = lit "/quit\n" := by decide

/-- C6, as the code has it: for a sender name that fits the `username` field
and a payload of 1 to `BUFFER_SIZE - 1` bytes that contains no zero byte and
is not `"/quit\n"`, the message loop hands `broadcast_message` exactly
`"[" ++ name ++ "]: " ++ payload` and goes on with the next read; that message
has no zero byte, so the bytes sent are the whole of it. -/
theorem active_loop_relays (st : Server) (client_socket : Int) (username payload : List Nat)
    (rest : List Recv) (outcome : Nat → Nat → SendResult) (k : Nat)
    (hname : 0 ∉ username ∧ username.length < USERNAME_SIZE)
    (hnul : 0 ∉ payload) (hpos : 0 < payload.length) (hlen : payload.length < BUFFER_SIZE)
    (hquit : payload ≠ lit "/quit\n") :
    active_loop client_socket username outcome st k (.data payload :: rest) =
      (match broadcast_message st (lit "[" ++ username ++ lit "]: " ++ payload)
          client_socket (outcome k) with
        | .error e => .error e
        | .ok st1 => active_loop client_socket username outcome st1 (k + 1) rest) ∧
    cstr (lit "[" ++ username ++ lit "]: " ++ payload) =
      lit "[" ++ username ++ lit "]: " ++ payload := by
  constructor
  · have h0 : ¬ payload.length = 0 := by omega
    have hcmp : ¬ strcmp (cstr payload) (lit "/quit\n") = 0 := by
      rw [strcmp_eq_zero_iff, cstr_idem, cstr_quit, cstr_eq_self _ hnul]
      exact hquit
    rw [active_loop]
    simp only [h0, if_false, recv_string, hlen, if_true, hcmp]
    rw [cstr_eq_self _ hnul, relay_message_eq username payload hname hnul hlen]
  · apply cstr_eq_self
    intro h
    simp only [List.mem_append] at h
    rcases h with ((h | h) | h) | h
    · exact zero_not_mem_lit_bracket h
    · exact hname.1 h
    · exact zero_not_mem_lit_colon h
    · exact hnul h

/-- C6 for `al` (socket 4) sending `hello` in the two-client table. -/
theorem active_loop_relays_witness :
    active_loop 4 (lit "al") (fun _ _ => SendResult.sent) ⟨twoClients, false, []⟩ 1
        (.data (lit "hello") :: [.data []]) =
      (match broadcast_message ⟨twoClients, false, []⟩
          (lit "[" ++ lit "al" ++ lit "]: " ++ lit "hello") 4 ((fun _ _ => SendResult.sent) 1) with
        | .error e => .error e
        | .ok st1 => active_loop 4 (lit "al") (fun _ _ => SendResult.sent) st1 (1 + 1) [.data []]) ∧
    cstr (lit "[" ++ lit "al" ++ lit "]: " ++ lit "hello") =
      lit "[" ++ lit "al" ++ lit "]: " ++ lit "hello" :=
  active_loop_relays ⟨twoClients, false, []⟩ 4 (lit "al") (lit "hello") [.data []]
    (fun _ _ => SendResult.sent) 1 ⟨by decide, by decide⟩ (by decide) (by decide) (by decide) (by decide)

/-- C6 as stated does not hold: the three-byte payload `h`, zero, `i` is not
`"/quit\n"` and is far shorter than `MSG_SIZE`, yet what `al` broadcasts and
what is sent to `bo` is `"[al]: h"`, two bytes short of
`"[al]: " ++ payload`; and a payload that fills the 1024-byte buffer is
terminated outside the buffer. -/
theorem active_loop_payload_not_verbatim :
    ([104, 0, 105] : List Nat).length ≤ MSG_SIZE ∧ ([104, 0, 105] : List Nat) ≠ lit "/quit\n" ∧
    (active_loop 4 (lit "al") (fun _ _ => SendResult.sent) ⟨twoClients, false, []⟩ 1
        [.data [104, 0, 105], .data []]).map
        (fun r => (broadcastsOf r.1.trace, sendsOf r.1.trace)) =
      .ok ([lit "[al]: h"], [(5, lit "[al]: h")]) ∧
    lit "[al]: h" ≠ lit "[" ++ lit "al" ++ lit "]: " ++ [104, 0, 105] ∧
    (List.replicate BUFFER_SIZE 97).length ≤ MSG_SIZE ∧
    active_loop 4 (lit "al") (fun _ _ => SendResult.sent) ⟨twoClients, false, []⟩ 1
        [.data (List.replicate BUFFER_SIZE 97), .data []] = .error .outOfBounds := by
  refine ⟨by decide, by decide, by decide, by decide, ?_, ?_⟩
  · rw [List.length_replicate]
    decide
  · have h0 : ¬ BUFFER_SIZE = 0 := by decide
    simp [active_loop, recv_string, h0]

/-! ## Departure -/

/-- A broadcast by a sender that has a slot returns with the mutex free, when
no `send` raises SIGPIPE. -/
theorem broadcast_message_registered (st : Server) (message : List Nat) (sender : Int)
    (outcome : Nat → SendResult) (hfree : st.held = false)
    (hs : ∀ j, outcome j ≠ .sigpipe)
    (hin : ∃ c ∈ st.clients, c.socket = sender) :
    broadcast_message st message sender outcome =
      .ok { clients := st.clients, held := false,
            trace := st.trace ++ [.broadcast message sender, .lock] ++
              (broadcast_loop message sender outcome 0 st.clients true).1 } := by
  have h : (broadcast_loop message sender outcome 0 st.clients true).2 = some false := by
    apply broadcast_loop_released _ _ _ hs
    obtain ⟨c, hc, he⟩ := hin
    exact ⟨c, hc, fun h => h.2 he⟩
  exact broadcast_message_ok st message sender outcome false hfree h

/-- The message loop of a sender that has a slot: if every read leaves room
for the terminator, no `send` raises SIGPIPE and some read ends the loop, the
loop returns, with the
table unchanged and the mutex free, having broadcast relayed messages only. -/
theorem active_loop_returns (client_socket : Int) (username : List Nat)
    (outcome : Nat → Nat → SendResult) (reads : List Recv) (st : Server) (k : Nat)
    (hfree : st.held = false) (hin : ∃ c ∈ st.clients, c.socket = client_socket)
    (hsend : ∀ j i, outcome j i ≠ .sigpipe)
    (hreads : ∀ r ∈ reads, ∀ bytes, r = .data bytes → bytes.length < BUFFER_SIZE)
    (hend : ∃ r ∈ reads, endsLoop r = true) :
    ∃ st1 k1 evs, active_loop client_socket username outcome st k reads = .ok (st1, k1) ∧
      st1.clients = st.clients ∧ st1.held = false ∧ st1.trace = st.trace ++ evs ∧
      ∀ m ∈ broadcastsOf evs, ∃ buffer, m = relay_message username buffer := by
  induction reads generalizing st k with
  | nil => simp at hend
  | cons r rest ih =>
    cases r with
    | error => exact ⟨st, k, [], by simp [active_loop], rfl, hfree, by simp, by simp [broadcastsOf]⟩
    | data bytes =>
      by_cases h0 : bytes.length = 0
      · exact ⟨st, k, [], by simp [active_loop, h0], rfl, hfree, by simp,
          by simp [broadcastsOf]⟩
      · have hlen : bytes.length < BUFFER_SIZE := hreads _ (List.mem_cons_self _ _) bytes rfl
        by_cases hq : strcmp (cstr bytes) (lit "/quit\n") = 0
        · exact ⟨st, k, [], by simp [active_loop, h0, recv_string, hlen, hq], rfl, hfree,
            by simp, by simp [broadcastsOf]⟩
        · have hnot : endsLoop (.data bytes) = false := by
            have hq1 : ¬ cstr bytes = lit "/quit\n" := by
              intro e
              apply hq
              rw [strcmp_eq_zero_iff, cstr_idem, cstr_quit]
              exact e
            simp [endsLoop, h0, hq1]
          have hend1 : ∃ r ∈ rest, endsLoop r = true := by
            obtain ⟨r, hr, he⟩ := hend
            rcases List.mem_cons.mp hr with e | e
            · subst e
              rw [hnot] at he
              exact absurd he (by decide)
            · exact ⟨r, e, he⟩
          have hb := broadcast_message_registered st (relay_message username (cstr bytes))
            client_socket (outcome k) hfree (hsend k) hin
          obtain ⟨st1, k1, evs, hrun, hc, hh, ht, hm⟩ :=
            ih ⟨st.clients, false, st.trace ++
                  [.broadcast (relay_message username (cstr bytes)) client_socket, .lock] ++
                  (broadcast_loop (relay_message username (cstr bytes)) client_socket (outcome k)
                    0 st.clients true).1⟩ (k + 1)
              rfl hin (fun r hr => hreads r (List.mem_cons_of_mem _ hr)) hend1
          refine ⟨st1, k1,
            [.broadcast (relay_message username (cstr bytes)) client_socket, .lock] ++
              (broadcast_loop (relay_message username (cstr bytes)) client_socket (outcome k)
                0 st.clients true).1 ++ evs, ?_, hc, hh, ?_, ?_⟩
          · rw [active_loop]
            simp only [h0, if_false, recv_string, hlen, if_true, hq, hb]
            exact hrun
          · rw [ht]
            simp only [List.append_assoc]
          · intro m hm1
            rw [broadcastsOf_append, broadcastsOf_append, broadcastsOf_broadcast_loop] at hm1
            simp only [broadcastsOf, List.append_nil, List.singleton_append,
              List.mem_cons] at hm1
            rcases hm1 with e | e
            · exact ⟨cstr bytes, e⟩
            · exact hm m e

theorem remove_slot_first (pre post : List Client) (sock : Int) (username : List Nat)
    (hpre : ∀ c ∈ pre, c.socket ≠ sock) :
    remove_slot (pre ++ ⟨sock, username⟩ :: post) sock = pre ++ zeroSlot :: post := by
  induction pre with
  | nil => simp [remove_slot]
  | cons c cs ih =>
    have hc : ¬ c.socket = sock := hpre c (List.mem_cons_self _ _)
    have hcs : ∀ d ∈ cs, d.socket ≠ sock := fun d hd => hpre d (List.mem_cons_of_mem _ hd)
    simp [remove_slot, hc, ih hcs]

theorem add_client_free_slot (clients : List Client) (sock : Int) (name : List Nat)
    (hfree : ∃ c ∈ clients, c.socket = 0) (hlen : strlen name < USERNAME_SIZE) :
    ∃ clients1, add_client clients sock name = .ok clients1 ∧
      (⟨sock, cstr name⟩ : Client) ∈ clients1 := by
  induction clients with
  | nil => simp at hfree
  | cons c rest ih =>
    by_cases hc : c.socket = 0
    · exact ⟨⟨sock, cstr name⟩ :: rest, by simp [add_client, hc, strcpy, hlen], by simp⟩
    · have hrest : ∃ d ∈ rest, d.socket = 0 := by
        obtain ⟨d, hd, hz⟩ := hfree
        rcases List.mem_cons.mp hd with e | e
        · subst e; exact absurd hz hc
        · exact ⟨d, e, hz⟩
      obtain ⟨rest1, hadd, hmem⟩ := ih hrest
      exact ⟨c :: rest1, by simp [add_client, hc, hadd], List.mem_cons_of_mem _ hmem⟩

theorem recipients_without_sender (pre post : List Client) (sock : Int) (username : List Nat)
    (huniq : ∀ c ∈ pre ++ post, c.socket ≠ sock) :
    recipients (pre ++ ⟨sock, username⟩ :: post) sock = occupied (pre ++ post) := by
  have h : ∀ l : List Client, (∀ c ∈ l, c.socket ≠ sock) →
      l.filter (fun c => decide (c.socket ≠ 0 ∧ c.socket ≠ sock)) =
        l.filter (fun c => decide (c.socket ≠ 0)) := by
    intro l hl
    apply List.filter_congr
    intro c hc
    have := hl c hc
    simp [this]
  unfold recipients occupied
  rw [List.filter_append, List.filter_append, List.filter_cons]
  simp only [ne_eq, not_true_eq_false, and_false, decide_False, Bool.false_eq_true, if_false]
  rw [h pre (fun c hc => huniq c (List.mem_append_left _ hc)),
    h post (fun c hc => huniq c (List.mem_append_right _ hc))]

/-- The departure of a client that has a slot (lines 135-144), when no `send`
raises SIGPIPE. -/
theorem closing_registered (st : Server) (pre post : List Client) (client_socket : Int)
    (username : List Nat) (outcome : Nat → SendResult)
    (hfree : st.held = false) (hs : ∀ j, outcome j ≠ .sigpipe)
    (htable : st.clients = pre ++ ⟨client_socket, username⟩ :: post)
    (hpre : ∀ c ∈ pre, c.socket ≠ client_socket)
    (hname : 0 ∉ username ∧ username.length < USERNAME_SIZE) :
    closing st client_socket username outcome =
      .ok { clients := pre ++ zeroSlot :: post, held := false,
            trace := st.trace ++
              ([.broadcast (username ++ lit " has disconnected.\n") client_socket, .lock] ++
                (broadcast_loop (username ++ lit " has disconnected.\n") client_socket outcome 0
                  st.clients true).1) ++
              [.lock, .unlock true, .close client_socket] } := by
  have hin : ∃ c ∈ st.clients, c.socket = client_socket :=
    ⟨⟨client_socket, username⟩, by rw [htable]; simp, rfl⟩
  rw [closing, disconnected_message_eq username hname,
    broadcast_message_registered st _ client_socket outcome hfree hs hin]
  simp only [remove_client, pthread_mutex_lock, pthread_mutex_unlock, emit, htable,
    remove_slot_first pre post client_socket username hpre, Bool.false_eq_true, if_false,
    List.append_assoc, List.cons_append, List.nil_append]

/-- The path through lines 90-106 when the name is free. -/
theorem try_register_accepts (st : Server) (client_socket : Int) (username : List Nat)
    (clients1 : List Client) (hfree : st.held = false)
    (hname : is_username_taken st.clients username = false)
    (hadd : add_client st.clients client_socket username = .ok clients1) :
    try_register st client_socket username =
      .ok ({ clients := clients1, held := false, trace := st.trace ++ [.lock, .unlock true] },
           true) := by
  simp [try_register, pthread_mutex_lock, pthread_mutex_unlock, hfree, hname, hadd]

/-! ## Disconnecting frees the name -/

/-- Where the departure works.  Let client A hold a slot of the table with
socket `client_socket` and name `username` (a string that fits the field), no
other slot holding that socket and no other occupied slot that name.  For
every sequence of reads that leave room for the terminator and among which
one ends the message loop (an error, a zero-length read, or `"/quit\n"`), and
as long as no `send` raises SIGPIPE, the handler entered with the mutex free
returns; the loop broadcasts no departure message; then exactly one
broadcast of `username ++ " has disconnected.\n"` is made and sent to every
other occupied slot; then `remove_client` clears A's slot and the socket is
closed.  Afterwards the name is not taken and a registration under that name
from any socket is accepted and stored. -/
theorem serve_departure (st : Server) (pre post : List Client) (client_socket : Int)
    (username : List Nat) (reads : List Recv) (outcome : Nat → Nat → SendResult) (k : Nat)
    (hfree : st.held = false)
    (htable : st.clients = pre ++ ⟨client_socket, username⟩ :: post)
    (huniq : ∀ c ∈ pre ++ post, c.socket ≠ client_socket)
    (hother : ∀ c ∈ pre ++ post, c.socket ≠ 0 → cstr c.username ≠ username)
    (hname : 0 ∉ username ∧ username.length < USERNAME_SIZE)
    (hsend : ∀ j i, outcome j i ≠ .sigpipe)
    (hreads : ∀ r ∈ reads, ∀ bytes, r = .data bytes → bytes.length < BUFFER_SIZE)
    (hend : ∃ r ∈ reads, endsLoop r = true) :
    ∃ st1 evsLoop evsBye,
      serve st client_socket username reads outcome k = .ok st1 ∧
      st1.trace = st.trace ++ evsLoop ++ evsBye ++
        [.lock, .unlock true, .close client_socket] ∧
      (username ++ lit " has disconnected.\n") ∉ broadcastsOf evsLoop ∧
      broadcastsOf evsBye = [username ++ lit " has disconnected.\n"] ∧
      sendsOf evsBye = (occupied (pre ++ post)).map
        (fun c => (c.socket, username ++ lit " has disconnected.\n")) ∧
      st1.clients = pre ++ zeroSlot :: post ∧ st1.held = false ∧
      is_username_taken st1.clients username = false ∧
      ∀ sock2 : Int, ∃ st2, try_register st1 sock2 username = .ok (st2, true) ∧
        (⟨sock2, username⟩ : Client) ∈ st2.clients := by
  have hin : ∃ c ∈ st.clients, c.socket = client_socket :=
    ⟨⟨client_socket, username⟩, by rw [htable]; simp, rfl⟩
  have hpre : ∀ c ∈ pre, c.socket ≠ client_socket :=
    fun c hc => huniq c (List.mem_append_left _ hc)
  obtain ⟨stL, k1, evs, hrun, hc, hh, ht, hm⟩ :=
    active_loop_returns client_socket username outcome reads st k hfree hin hsend hreads hend
  have hclose := closing_registered stL pre post client_socket username (outcome k1) hh
    (hsend k1) (hc.trans htable) hpre hname
  have hbye : (0 : Nat) ∉ username ++ lit " has disconnected.\n" := by
    intro h
    rcases List.mem_append.mp h with h | h
    · exact hname.1 h
    · exact zero_not_mem_lit_disconnected h
  have htaken : is_username_taken (pre ++ zeroSlot :: post) username = false := by
    rw [is_username_taken_eq_false_iff]
    intro c hcm hs
    rw [cstr_eq_self _ hname.1]
    rcases List.mem_append.mp hcm with h | h
    · exact hother c (List.mem_append_left _ h) hs
    · rcases List.mem_cons.mp h with e | e
      · subst e
        exact absurd rfl hs
      · exact hother c (List.mem_append_right _ e) hs
  have hlen : strlen username < USERNAME_SIZE := by
    rw [strlen, cstr_eq_self _ hname.1]
    exact hname.2
  refine ⟨⟨pre ++ zeroSlot :: post, false, stL.trace ++
      ([.broadcast (username ++ lit " has disconnected.\n") client_socket, .lock] ++
        (broadcast_loop (username ++ lit " has disconnected.\n") client_socket (outcome k1) 0
          stL.clients true).1) ++ [.lock, .unlock true, .close client_socket]⟩, evs,
    [.broadcast (username ++ lit " has disconnected.\n") client_socket, .lock] ++
      (broadcast_loop (username ++ lit " has disconnected.\n") client_socket (outcome k1) 0
        stL.clients true).1, ?_, ?_, ?_, ?_, ?_, rfl, rfl, htaken, ?_⟩
  · rw [serve, hrun]
    exact hclose
  · show stL.trace ++ _ ++ _ = _
    rw [ht]
  · intro hmem
    obtain ⟨buffer, hb⟩ := hm _ hmem
    exact relay_message_ne_disconnected username buffer hname hb.symm
  · rw [broadcastsOf_append, broadcastsOf_broadcast_loop]
    simp [broadcastsOf]
  · rw [sendsOf_append, sendsOf_broadcast_loop _ _ _ (hsend k1), hc, htable,
      recipients_without_sender pre post client_socket username huniq, cstr_eq_self _ hbye]
    simp [sendsOf]
  · intro sock2
    obtain ⟨cs, hadd, hmem⟩ := add_client_free_slot (pre ++ zeroSlot :: post) sock2 username
      ⟨zeroSlot, by simp, rfl⟩ hlen
    rw [cstr_eq_self _ hname.1] at hmem
    exact ⟨_, try_register_accepts _ sock2 username cs rfl htaken hadd, hmem⟩

/-- C7 (the code departs from it): `al` holds slot 0 of the two-client table
(socket 4), `bo` slot 1.  (a) `al` sends 1024 bytes and then `"/quit\n"`: the
first read fills the buffer and its terminator is written outside it, so the
handler has no defined behaviour from there.  (b) `al` sends `hello` and then
`"/quit\n"`, and the `send` of the relayed message to `bo` raises SIGPIPE: the
process ends in the relay, before any departure broadcast and before
`remove_client`.  (c) `al` sends `"/quit\n"` and the `send` of the departure
message to `bo` raises SIGPIPE: the process ends before `remove_client`.  In
all three the reads end the message loop, yet the slot of `al` is never
cleared, the name `al` being taken in the table as it stands. -/
theorem serve_departure_missed :
    endsLoop (.data (lit "/quit\n")) = true ∧
    is_username_taken twoClients (lit "al") = true ∧
    serve ⟨twoClients, false, []⟩ 4 (lit "al")
        [.data (List.replicate BUFFER_SIZE 97), .data (lit "/quit\n")]
        (fun _ _ => SendResult.sent) 1 = .error .outOfBounds ∧
    serve ⟨twoClients, false, []⟩ 4 (lit "al") [.data (lit "hello"), .data (lit "/quit\n")]
        (fun _ _ => SendResult.sigpipe) 1 =
      .error (.killed [.broadcast (lit "[al]: hello") 4, .lock, .slotRead 0 true,
        .unlock true, .slotRead 1 false, .send 5 (lit "[al]: hello"), .sigpipe]) ∧
    serve ⟨twoClients, false, []⟩ 4 (lit "al") [.data (lit "/quit\n")]
        (fun _ _ => SendResult.sigpipe) 1 =
      .error (.killed [.broadcast (lit "al has disconnected.\n") 4, .lock,
        .slotRead 0 true, .unlock true, .slotRead 1 false,
        .send 5 (lit "al has disconnected.\n"), .sigpipe]) := by
  refine ⟨by decide, by decide, ?_, by decide, by decide⟩
  have h0 : ¬ BUFFER_SIZE = 0 := by decide
  simp [serve, active_loop, recv_string, h0]

end ChatServer
